import Mathlib

/-!
Verification of the tool-augmented conversation core of the Smart AI
Assistant repository: the encrypted secret store (`ApiKeyManager`), the
tool registry (`PluginManager`), the conversation orchestrator
(`AIAssistant`) and the provider registry (`AIProviderManager`), embedded
shallowly from the TypeScript source.

Conventions of the embedding:
- JavaScript `Map` objects are modelled by insertion-ordered association
  lists (`JsMap`), matching `Map.prototype.set/get/delete/values`.
- Byte buffers are `List Nat` with every element `< 256`; JavaScript
  strings handled by the crypto layer are `List Char`.
- `async` functions that can throw are modelled as `Except String`-valued
  functions; `Date` values and wall-clock durations are `Nat` parameters.
- Randomness (initialization vectors, generated ids) is passed in as an
  explicit parameter at the call sites that consume it.
-/

set_option autoImplicit false

namespace Spec2Proof

universe u

/-- Insertion-ordered string-keyed map, the model of a JavaScript `Map`. -/
def JsMap (α : Type u) : Type u := List (String × α)

/-- `Map.prototype.get`: first (unique) entry with the given key. -/
def jsGet {α : Type u} : JsMap α → String → Option α
  | [], _ => none
  | (k, v) :: rest, key => if k = key then some v else jsGet rest key

/-- `Map.prototype.set`: update in place when the key exists, else append. -/
def jsSet {α : Type u} : JsMap α → String → α → JsMap α
  | [], key, val => [(key, val)]
  | (k, v) :: rest, key, val =>
      if k = key then (key, val) :: rest else (k, v) :: jsSet rest key val

/-- `Map.prototype.delete`: remove the entry with the given key. -/
def jsDelete {α : Type u} : JsMap α → String → JsMap α
  | [], _ => []
  | (k, v) :: rest, key =>
      if k = key then rest else (k, v) :: jsDelete rest key

/-- `Array.from(map.values())`: the values in insertion order. -/
def jsValues {α : Type u} (m : JsMap α) : List α := m.map Prod.snd

theorem jsGet_set_self {α : Type u} (m : JsMap α) (k : String) (v : α) :
    jsGet (jsSet m k v) k = some v := by
  induction m with
  | nil => simp [jsSet, jsGet]
  | cons hd tl ih =>
      obtain ⟨k', v'⟩ := hd
      by_cases h : k' = k
      · simp [jsSet, jsGet, h]
      · simp [jsSet, jsGet, h, ih]

theorem jsGet_set_ne {α : Type u} (m : JsMap α) (k k' : String) (v : α)
    (h : k ≠ k') : jsGet (jsSet m k v) k' = jsGet m k' := by
  induction m with
  | nil => simp [jsSet, jsGet, h]
  | cons hd tl ih =>
      obtain ⟨k₀, v₀⟩ := hd
      by_cases h₀ : k₀ = k
      · subst h₀
        simp [jsSet, jsGet, h]
      · simp [jsSet, jsGet, h₀, ih]

theorem jsGet_eq_none_of_not_mem {α : Type u} (m : JsMap α) (k : String)
    (h : k ∉ m.map Prod.fst) : jsGet m k = none := by
  induction m with
  | nil => simp [jsGet]
  | cons hd tl ih =>
      obtain ⟨k₀, v₀⟩ := hd
      simp only [List.map_cons, List.mem_cons] at h
      push_neg at h
      have hk : k₀ ≠ k := fun he => h.1 he.symm
      simp [jsGet, hk, ih h.2]

theorem jsGet_delete_self {α : Type u} (m : JsMap α) (k : String)
    (huniq : (m.map Prod.fst).Nodup) : jsGet (jsDelete m k) k = none := by
  induction m with
  | nil => simp [jsDelete, jsGet]
  | cons hd tl ih =>
      obtain ⟨k₀, v₀⟩ := hd
      simp only [List.map_cons, List.nodup_cons] at huniq
      by_cases h₀ : k₀ = k
      · subst h₀
        simp only [jsDelete, if_pos rfl]
        exact jsGet_eq_none_of_not_mem tl k₀ huniq.1
      · simp [jsDelete, jsGet, h₀, ih huniq.2]

theorem jsGet_delete_ne {α : Type u} (m : JsMap α) (k k' : String)
    (h : k ≠ k') : jsGet (jsDelete m k) k' = jsGet m k' := by
  induction m with
  | nil => simp [jsDelete, jsGet]
  | cons hd tl ih =>
      obtain ⟨k₀, v₀⟩ := hd
      by_cases h₀ : k₀ = k
      · subst h₀
        simp [jsDelete, jsGet, h]
      · simp [jsDelete, jsGet, h₀, ih]

/-! ## Crypto layer: AES-256-CBC as used by `ApiKeyManager`

The block cipher itself (AES with the derived key) is abstracted as a
`BlockCipher` parameter; the CBC chaining mode, the PKCS#7 padding, the
streaming `cipher.update`/`cipher.final` semantics of Node's crypto
module, and the hex/`:`-separated payload framing are embedded concretely,
because that is where `ApiKeyManager.encrypt`/`decrypt` live. -/

/-- Byte-wise XOR of two buffers (CBC chaining step). -/
def xorBytes (a b : List Nat) : List Nat := List.zipWith (fun x y => x ^^^ y) a b

/-- PKCS#7 padding of the final partial block (callers pass `r.length < 16`). -/
def pkcs7pad (r : List Nat) : List Nat :=
  let p := 16 - r.length % 16
  r ++ List.replicate p p

/-- PKCS#7 unpadding with validation, the behaviour of `decipher.final`:
invalid padding raises a `bad decrypt` error. -/
def pkcs7unpad (bs : List Nat) : Except String (List Nat) :=
  match bs.getLast? with
  | none => Except.error "bad decrypt"
  | some p =>
      if 1 ≤ p ∧ p ≤ 16 ∧ p ≤ bs.length ∧ (bs.drop (bs.length - p)).all (fun x => x = p)
      then Except.ok (bs.take (bs.length - p))
      else Except.error "bad decrypt"

/-- Fuel-indexed splitting of a buffer into 16-byte blocks. -/
def chunks16Aux : Nat → List Nat → List (List Nat)
  | _, [] => []
  | 0, _ :: _ => []
  | fuel + 1, b :: rest => ((b :: rest).take 16) :: chunks16Aux fuel ((b :: rest).drop 16)

/-- Split a buffer into successive 16-byte blocks (last one possibly short). -/
def chunks16 (bs : List Nat) : List (List Nat) := chunks16Aux bs.length bs

theorem chunks16Aux_congr :
    ∀ (fuel fuel' : Nat) (bs : List Nat), bs.length ≤ fuel → bs.length ≤ fuel' →
      chunks16Aux fuel bs = chunks16Aux fuel' bs := by
  intro fuel
  induction fuel with
  | zero =>
      intro fuel' bs h _
      cases bs with
      | nil => cases fuel' <;> rfl
      | cons b rest => simp at h
  | succ f ih =>
      intro fuel' bs h h'
      cases bs with
      | nil => cases fuel' <;> rfl
      | cons b rest =>
          cases fuel' with
          | zero => simp at h'
          | succ f' =>
              simp only [chunks16Aux]
              congr 1
              simp only [List.length_cons] at h h'
              apply ih
              · simp only [List.length_drop, List.length_cons]
                omega
              · simp only [List.length_drop, List.length_cons]
                omega

theorem chunks16_nil : chunks16 [] = [] := rfl

theorem chunks16_cons (bs : List Nat) (hne : bs ≠ []) :
    chunks16 bs = bs.take 16 :: chunks16 (bs.drop 16) := by
  obtain ⟨b, rest, rfl⟩ := List.exists_cons_of_ne_nil hne
  show chunks16Aux (b :: rest).length (b :: rest) = _
  simp only [List.length_cons, chunks16Aux]
  congr 1
  apply chunks16Aux_congr
  · simp only [List.length_drop, List.length_cons]
    omega
  · simp [chunks16]

/-- CBC encryption of a list of complete blocks: returns the ciphertext blocks
and the final chaining value. -/
def cbcEnc (enc : List Nat → List Nat) : List Nat → List (List Nat) → List (List Nat) × List Nat
  | chain, [] => ([], chain)
  | chain, b :: rest =>
      let c := enc (xorBytes b chain)
      let r := cbcEnc enc c rest
      (c :: r.1, r.2)

/-- CBC decryption of a list of ciphertext blocks. -/
def cbcDec (dec : List Nat → List Nat) : List Nat → List (List Nat) → List (List Nat)
  | _, [] => []
  | chain, c :: rest => xorBytes (dec c) chain :: cbcDec dec c rest

/-- Semantics of Node's streaming cipher when the whole plaintext goes through a
single `cipher.update` followed by `cipher.final`: `update` emits the CBC
encryption of every complete 16-byte input block, `final` PKCS#7-pads the
remainder and emits the last block. Returns `(updateOutput, finalOutput)`. -/
def nodeCbcUpdateFinal (enc : List Nat → List Nat) (iv pt : List Nat) :
    List (List Nat) × List Nat :=
  let nFull := pt.length / 16
  let fullPart := pt.take (nFull * 16)
  let rem := pt.drop (nFull * 16)
  let r := cbcEnc enc iv (chunks16 fullPart)
  (r.1, enc (xorBytes (pkcs7pad rem) r.2))

/-- Hexadecimal digit character (lowercase), as produced by `Buffer.toString('hex')`. -/
def hexDigit (n : Nat) : Char := if n < 10 then Char.ofNat (48 + n) else Char.ofNat (87 + n)

/-- One byte as two hex characters. -/
def byteToHex (b : Nat) : List Char := [hexDigit (b / 16), hexDigit (b % 16)]

/-- `Buffer.prototype.toString('hex')`. -/
def bytesToHex (bs : List Nat) : List Char := bs.flatMap byteToHex

/-- Value of a hex digit character, accepting both cases. -/
def hexDigitVal (c : Char) : Option Nat :=
  if 48 ≤ c.toNat ∧ c.toNat ≤ 57 then some (c.toNat - 48)
  else if 97 ≤ c.toNat ∧ c.toNat ≤ 102 then some (c.toNat - 87)
  else if 65 ≤ c.toNat ∧ c.toNat ≤ 70 then some (c.toNat - 55)
  else none

/-- `Buffer.from(str, 'hex')`: parses hex pairs, truncating at the first
invalid pair (Node truncates rather than throwing). -/
def hexToBytes : List Char → List Nat
  | c₁ :: c₂ :: rest =>
      match hexDigitVal c₁, hexDigitVal c₂ with
      | some h, some l => (16 * h + l) :: hexToBytes rest
      | _, _ => []
  | _ => []

/-- `String.prototype.split` with a single-character separator. -/
def splitOnChar (sep : Char) : List Char → List (List Char)
  | [] => [[]]
  | c :: rest =>
      let r := splitOnChar sep rest
      if c = sep then [] :: r
      else
        match r with
        | [] => [[c]]
        | h :: t => (c :: h) :: t

/-- The AES-256 block transformation under the derived key, abstracted:
`enc` is the forward direction, `dec` its inverse. -/
structure BlockCipher where
  enc : List Nat → List Nat
  dec : List Nat → List Nat

/-- A well-formed direction of a 16-byte block cipher: maps 16-byte buffers of
bytes to 16-byte buffers of bytes. -/
def blockFn16 (f : List Nat → List Nat) : Prop :=
  ∀ b : List Nat, b.length = 16 → (∀ x ∈ b, x < 256) →
    (f b).length = 16 ∧ ∀ x ∈ f b, x < 256

namespace ApiKeyManager

/-- `ApiKeyManager.encrypt`. The source reads:
`let encrypted = cipher.update(text, 'utf8', 'hex'); encrypted = cipher.final('hex');`
so the output of `cipher.update` is computed and then DISCARDED (plain
reassignment, not `+=`): only the final block reaches the stored payload
`iv.toString('hex') + ':' + encrypted`. The embedding reproduces this. -/
def encrypt (bc : BlockCipher) (iv : List Nat) (text : List Nat) : List Char :=
  let out := nodeCbcUpdateFinal bc.enc iv text
  bytesToHex iv ++ ':' :: bytesToHex out.2

/-- `ApiKeyManager.decrypt`: splits the payload on `':'`, hex-decodes the two
parts, CBC-decrypts under the derived key and strips PKCS#7 padding.
`createDecipheriv` rejects an IV that is not 16 bytes; `decipher.final`
rejects data that is empty or not block-aligned, and bad padding. -/
def decrypt (bc : BlockCipher) (encryptedText : List Char) : Except String (List Nat) :=
  match splitOnChar ':' encryptedText with
  | p0 :: p1 :: _ =>
      let iv := hexToBytes p0
      let enc := hexToBytes p1
      if iv.length ≠ 16 then Except.error "Invalid initialization vector"
      else if enc.length % 16 ≠ 0 ∨ enc.length = 0 then Except.error "bad decrypt"
      else pkcs7unpad (List.flatten (cbcDec bc.dec iv (chunks16 enc)))
  | _ => Except.error "bad decrypt"

end ApiKeyManager

theorem xorBytes_length (a b : List Nat) :
    (xorBytes a b).length = min a.length b.length := by
  simp [xorBytes]

theorem xorBytes_lt_256 : ∀ (a b : List Nat), (∀ x ∈ a, x < 256) →
    (∀ x ∈ b, x < 256) → ∀ x ∈ xorBytes a b, x < 256 := by
  intro a
  induction a with
  | nil =>
      intro b _ _ x hx
      simp [xorBytes] at hx
  | cons a₀ as ih =>
      intro b ha hb x hx
      cases b with
      | nil => simp [xorBytes] at hx
      | cons b₀ bs =>
          simp only [xorBytes, List.zipWith_cons_cons, List.mem_cons] at hx
          rcases hx with rfl | hx
          · have h1 : a₀ < 256 := ha a₀ (by simp)
            have h2 : b₀ < 256 := hb b₀ (by simp)
            have h3 : a₀ ^^^ b₀ < 2 ^ 8 := Nat.xor_lt_two_pow (by omega) (by omega)
            norm_num at h3
            exact h3
          · exact ih bs (fun y hy => ha y (by simp [hy]))
              (fun y hy => hb y (by simp [hy])) x hx

theorem cbcEnc_chain (enc : List Nat → List Nat) (henc : blockFn16 enc) :
    ∀ (blocks : List (List Nat)) (chain : List Nat),
      chain.length = 16 → (∀ x ∈ chain, x < 256) →
      (∀ b ∈ blocks, b.length = 16 ∧ ∀ x ∈ b, x < 256) →
      (cbcEnc enc chain blocks).2.length = 16 ∧
        ∀ x ∈ (cbcEnc enc chain blocks).2, x < 256 := by
  intro blocks
  induction blocks with
  | nil =>
      intro chain h1 h2 _
      exact ⟨h1, h2⟩
  | cons b rest ih =>
      intro chain h1 h2 hb
      have hb0 := hb b (by simp)
      have hx : (xorBytes b chain).length = 16 := by
        rw [xorBytes_length, hb0.1, h1]
        simp
      have hxb : ∀ x ∈ xorBytes b chain, x < 256 := xorBytes_lt_256 b chain hb0.2 h2
      have hc := henc (xorBytes b chain) hx hxb
      simp only [cbcEnc]
      exact ih (enc (xorBytes b chain)) hc.1 hc.2 (fun b' h => hb b' (by simp [h]))

theorem chunks16Aux_props : ∀ (fuel : Nat) (bs : List Nat), bs.length ≤ fuel →
    bs.length % 16 = 0 → ∀ c ∈ chunks16Aux fuel bs, c.length = 16 ∧ ∀ x ∈ c, x ∈ bs := by
  intro fuel
  induction fuel with
  | zero =>
      intro bs h _ c hc
      cases bs with
      | nil => simp [chunks16Aux] at hc
      | cons b rest => simp at h
  | succ f ih =>
      intro bs h hmod c hc
      cases bs with
      | nil => simp [chunks16Aux] at hc
      | cons b rest =>
          simp only [chunks16Aux, List.mem_cons] at hc
          have h16 : 16 ≤ (b :: rest).length := by
            by_contra hlt
            push_neg at hlt
            have := Nat.mod_eq_of_lt hlt
            simp only [List.length_cons] at hmod hlt this ⊢
            omega
          rcases hc with rfl | hc
          · refine ⟨?_, fun x hx => List.take_subset _ _ hx⟩
            rw [List.length_take]
            omega
          · have hrec := ih ((b :: rest).drop 16)
              (by simp only [List.length_drop, List.length_cons] at h ⊢; omega)
              (by simp only [List.length_drop]; omega) c hc
            exact ⟨hrec.1, fun x hx => List.drop_subset _ _ (hrec.2 x hx)⟩

theorem chunks16_props (bs : List Nat) (hmod : bs.length % 16 = 0) :
    ∀ c ∈ chunks16 bs, c.length = 16 ∧ ∀ x ∈ c, x ∈ bs :=
  chunks16Aux_props bs.length bs le_rfl hmod

theorem pkcs7unpad_shrinks (bs r : List Nat) (h : pkcs7unpad bs = Except.ok r) :
    r.length + 1 ≤ bs.length := by
  unfold pkcs7unpad at h
  cases hl : bs.getLast? with
  | none => rw [hl] at h; cases h
  | some p =>
      rw [hl] at h
      dsimp only [] at h
      by_cases hcond : 1 ≤ p ∧ p ≤ 16 ∧ p ≤ bs.length ∧
          (bs.drop (bs.length - p)).all (fun x => x = p)
      · rw [if_pos hcond] at h
        injection h with h
        subst h
        rw [List.length_take]
        omega
      · rw [if_neg hcond] at h
        cases h

theorem hexDigitVal_hexDigit : ∀ n < 16, hexDigitVal (hexDigit n) = some n := by decide

theorem hexDigit_ne_colon : ∀ n < 16, hexDigit n ≠ ':' := by decide

theorem hexToBytes_bytesToHex : ∀ (bs : List Nat), (∀ x ∈ bs, x < 256) →
    hexToBytes (bytesToHex bs) = bs := by
  intro bs
  induction bs with
  | nil => intro _; rfl
  | cons b rest ih =>
      intro hb
      have hblt : b < 256 := hb b (by simp)
      have h1 : b / 16 < 16 := by omega
      have h2 : b % 16 < 16 := Nat.mod_lt _ (by norm_num)
      have e1 := hexDigitVal_hexDigit (b / 16) h1
      have e2 := hexDigitVal_hexDigit (b % 16) h2
      show hexToBytes (hexDigit (b / 16) :: hexDigit (b % 16) :: bytesToHex rest) = b :: rest
      simp only [hexToBytes, e1, e2]
      rw [ih (fun x hx => hb x (by simp [hx]))]
      congr 1
      omega

theorem colon_not_mem_bytesToHex (bs : List Nat) (hb : ∀ x ∈ bs, x < 256) :
    ':' ∉ bytesToHex bs := by
  intro hmem
  rcases List.mem_flatMap.mp hmem with ⟨b, hbmem, hc⟩
  have hblt : b < 256 := hb b hbmem
  simp only [byteToHex, List.mem_cons, List.not_mem_nil, or_false] at hc
  rcases hc with hc | hc
  · exact hexDigit_ne_colon (b / 16) (by omega) hc.symm
  · exact hexDigit_ne_colon (b % 16) (Nat.mod_lt _ (by norm_num)) hc.symm

theorem splitOnChar_not_mem (sep : Char) (l : List Char) (h : sep ∉ l) :
    splitOnChar sep l = [l] := by
  induction l with
  | nil => rfl
  | cons c rest ih =>
      simp only [List.mem_cons] at h
      push_neg at h
      have hc : ¬c = sep := fun he => h.1 he.symm
      simp only [splitOnChar, if_neg hc, ih h.2]

theorem splitOnChar_append (sep : Char) (a b : List Char) (ha : sep ∉ a) :
    splitOnChar sep (a ++ sep :: b) = a :: splitOnChar sep b := by
  induction a with
  | nil => simp [splitOnChar]
  | cons c rest ih =>
      simp only [List.mem_cons] at ha
      push_neg at ha
      have hc : ¬c = sep := fun he => ha.1 he.symm
      rw [List.cons_append]
      simp only [splitOnChar, if_neg hc]
      rw [ih ha.2]

/-- Decrypting a well-formed single-block payload `iv-hex : ct-hex` yields, when
it succeeds at all, fewer than 16 plaintext bytes. -/
theorem decrypt_single_block_short (bc : BlockCipher)
    (hdec : ∀ b : List Nat, b.length = 16 → (bc.dec b).length = 16)
    (iv ct : List Nat) (hiv : iv.length = 16) (hivb : ∀ x ∈ iv, x < 256)
    (hctl : ct.length = 16) (hctb : ∀ x ∈ ct, x < 256) (r : List Nat)
    (h : ApiKeyManager.decrypt bc (bytesToHex iv ++ ':' :: bytesToHex ct) = Except.ok r) :
    r.length + 1 ≤ 16 := by
  unfold ApiKeyManager.decrypt at h
  rw [splitOnChar_append ':' _ _ (colon_not_mem_bytesToHex iv hivb),
      splitOnChar_not_mem ':' _ (colon_not_mem_bytesToHex ct hctb)] at h
  simp only [hexToBytes_bytesToHex iv hivb, hexToBytes_bytesToHex ct hctb] at h
  rw [hiv, hctl] at h
  norm_num at h
  have hctne : ct ≠ [] := by
    intro he
    rw [he] at hctl
    simp at hctl
  rw [chunks16_cons ct hctne] at h
  have htake : ct.take 16 = ct := List.take_of_length_le (le_of_eq hctl)
  have hdrop : ct.drop 16 = [] := List.drop_eq_nil_of_le (le_of_eq hctl)
  rw [htake, hdrop, chunks16_nil] at h
  simp only [cbcDec, List.flatten_cons, List.flatten_nil, List.append_nil] at h
  have hfinal := pkcs7unpad_shrinks _ _ h
  rw [xorBytes_length, hdec ct hctl, hiv] at hfinal
  simpa using hfinal

/-- Core consequence of the dead-store bug in `ApiKeyManager.encrypt`: because
the `cipher.update` output is discarded, the persisted ciphertext is a single
block, so for any plaintext of at least 16 bytes decryption either fails or
returns something strictly shorter than the plaintext — never the plaintext. -/
theorem decrypt_encrypt_misses_long_plaintext (bc : BlockCipher)
    (henc : blockFn16 bc.enc)
    (hdec : ∀ b : List Nat, b.length = 16 → (bc.dec b).length = 16)
    (iv pt : List Nat) (hiv : iv.length = 16) (hivb : ∀ x ∈ iv, x < 256)
    (hpt : ∀ x ∈ pt, x < 256) (hlen : 16 ≤ pt.length) :
    ApiKeyManager.decrypt bc (ApiKeyManager.encrypt bc iv pt) ≠ Except.ok pt := by
  have hfullmod : (pt.take (pt.length / 16 * 16)).length % 16 = 0 := by
    rw [List.length_take]
    have hle : pt.length / 16 * 16 ≤ pt.length := Nat.div_mul_le_self _ _
    rw [min_eq_left hle]
    omega
  have hblocks : ∀ c ∈ chunks16 (pt.take (pt.length / 16 * 16)),
      c.length = 16 ∧ ∀ x ∈ c, x < 256 := by
    intro c hc
    have := chunks16_props _ hfullmod c hc
    exact ⟨this.1, fun x hx => hpt x (List.take_subset _ _ (this.2 x hx))⟩
  have hchain := cbcEnc_chain bc.enc henc
    (chunks16 (pt.take (pt.length / 16 * 16))) iv hiv hivb hblocks
  have hremlen : (pt.drop (pt.length / 16 * 16)).length = pt.length % 16 := by
    rw [List.length_drop]
    omega
  have hpadlen : (pkcs7pad (pt.drop (pt.length / 16 * 16))).length = 16 := by
    unfold pkcs7pad
    rw [List.length_append, List.length_replicate, hremlen]
    omega
  have hpadb : ∀ x ∈ pkcs7pad (pt.drop (pt.length / 16 * 16)), x < 256 := by
    intro x hx
    unfold pkcs7pad at hx
    rcases List.mem_append.mp hx with h | h
    · exact hpt x (List.drop_subset _ _ h)
    · have := List.eq_of_mem_replicate h
      omega
  have hxlen : (xorBytes (pkcs7pad (pt.drop (pt.length / 16 * 16)))
      (cbcEnc bc.enc iv (chunks16 (pt.take (pt.length / 16 * 16)))).2).length = 16 := by
    rw [xorBytes_length, hpadlen, hchain.1]
    simp
  have hctp := henc _ hxlen (xorBytes_lt_256 _ _ hpadb hchain.2)
  intro hcontra
  have henceq : ApiKeyManager.encrypt bc iv pt =
      bytesToHex iv ++ ':' :: bytesToHex (bc.enc (xorBytes
        (pkcs7pad (pt.drop (pt.length / 16 * 16)))
        (cbcEnc bc.enc iv (chunks16 (pt.take (pt.length / 16 * 16)))).2)) := rfl
  rw [henceq] at hcontra
  have hshort := decrypt_single_block_short bc hdec iv _ hiv hivb hctp.1 hctp.2 pt hcontra
  omega

/-! ## Secret store: `ApiKeyManager` state and operations -/

/-- `StoredApiKey` — exactly the fields of the source interface; note the record
carries the ciphertext field `encryptedKey`. `Date`s are `Nat`s. -/
structure StoredApiKey where
  id : String
  name : String
  provider : String
  encryptedKey : List Char
  createdAt : Nat
  lastUsed : Option Nat := none
deriving DecidableEq

/-- In-memory state of the `ApiKeyManager` singleton: `private keys: Map<string, StoredApiKey>`. -/
structure KeyStore where
  keys : JsMap StoredApiKey

namespace ApiKeyManager

/-- `ApiKeyManager.addKey`: encrypts, inserts the record into the in-memory map,
then persists. The random id, the IV and the `Date` are parameters; `save` is
the outcome of `saveKeys` (an `.error` models a failed disk write, which
`saveKeys` logs and rethrows). The in-memory insertion happens BEFORE the save
and is not rolled back on failure. -/
def addKey (st : KeyStore) (bc : BlockCipher) (iv : List Nat) (keyId : String)
    (name provider : String) (apiKey : List Nat) (now : Nat)
    (save : Except String Unit) : KeyStore × Except String StoredApiKey :=
  let storedKey : StoredApiKey :=
    { id := keyId, name := name, provider := provider,
      encryptedKey := encrypt bc iv apiKey, createdAt := now, lastUsed := none }
  let st' : KeyStore := ⟨jsSet st.keys keyId storedKey⟩
  match save with
  | Except.ok _ => (st', Except.ok storedKey)
  | Except.error e => (st', Except.error e)

/-- `ApiKeyManager.getKey`: returns `null` (`ok none`) for a missing id; a
decryption failure propagates as a thrown error before any mutation; on
success `lastUsed` is updated in memory and the store re-persisted (a failing
save is rethrown with the update already applied). -/
def getKey (st : KeyStore) (bc : BlockCipher) (keyId : String) (now : Nat)
    (save : Except String Unit) : KeyStore × Except String (Option (List Nat)) :=
  match jsGet st.keys keyId with
  | none => (st, Except.ok none)
  | some storedKey =>
      match decrypt bc storedKey.encryptedKey with
      | Except.error e => (st, Except.error e)
      | Except.ok apiKey =>
          let st' : KeyStore := ⟨jsSet st.keys keyId { storedKey with lastUsed := some now }⟩
          match save with
          | Except.ok _ => (st', Except.ok (some apiKey))
          | Except.error e => (st', Except.error e)

/-- `ApiKeyManager.updateKey`: missing id throws; otherwise the record is
re-encrypted and updated in memory BEFORE the save; a failing save is rethrown
with the update still applied. -/
def updateKey (st : KeyStore) (bc : BlockCipher) (iv : List Nat) (keyId : String)
    (apiKey : List Nat) (now : Nat) (save : Except String Unit) :
    KeyStore × Except String Unit :=
  match jsGet st.keys keyId with
  | none => (st, Except.error ("API key not found: " ++ keyId))
  | some storedKey =>
      let st' : KeyStore := ⟨jsSet st.keys keyId
        { storedKey with encryptedKey := encrypt bc iv apiKey, lastUsed := some now }⟩
      match save with
      | Except.ok _ => (st', Except.ok ())
      | Except.error e => (st', Except.error e)

/-- `ApiKeyManager.deleteKey`: missing id throws; otherwise the record is
removed from the in-memory map BEFORE the save; a failing save is rethrown
with the deletion still applied. -/
def deleteKey (st : KeyStore) (keyId : String) (save : Except String Unit) :
    KeyStore × Except String Unit :=
  match jsGet st.keys keyId with
  | none => (st, Except.error ("API key not found: " ++ keyId))
  | some _ =>
      let st' : KeyStore := ⟨jsDelete st.keys keyId⟩
      match save with
      | Except.ok _ => (st', Except.ok ())
      | Except.error e => (st', Except.error e)

/-- `ApiKeyManager.getAllKeys`: `Array.from(this.keys.values())` — the full
stored records, `encryptedKey` included. -/
def getAllKeys (st : KeyStore) : List StoredApiKey := jsValues st.keys

end ApiKeyManager

/-! ## Tool registry: `PluginManager` -/

/-- JSON values are modelled by their rendered text; `JSON.parse` on tool-call
arguments is then the identity (the verified properties never exercise
malformed JSON, whose failure is caught by the same handler as executor
failures). -/
abbrev JsonText := String

/-- The `parameters` schema of a tool. -/
structure ToolParameters where
  properties : List (String × JsonText) := []
  required : List String := []

/-- `ToolResult` as returned by a tool executor. -/
structure ToolResult where
  success : Bool
  data : Option JsonText := none
  error : Option String := none

/-- A registered tool; a throwing executor is modelled by `Except.error`. -/
structure Tool where
  name : String
  description : String
  parameters : ToolParameters
  execute : JsonText → Except String ToolResult

/-- A capability bundle. The optional `cleanup` hook is invoked on unregister
with its errors swallowed and no registry effect, so it is modelled by a flag. -/
structure Plugin where
  name : String
  version : String
  description : String
  enabled : Bool
  tools : List Tool
  hasCleanup : Bool := false

/-- State of the `PluginManager` singleton: the plugin map and the flat
tool-name dispatch table. -/
structure PluginManager where
  plugins : JsMap Plugin
  tools : JsMap Tool

/-- `executeTool`'s success value: `{ ...result, executionTime }`. -/
structure ExecutedToolResult where
  success : Bool
  data : Option JsonText
  error : Option String
  executionTime : Nat

namespace PluginManager

/-- `PluginManager.registerPlugin`: stores the plugin under its name and enters
every one of its tools into the flat dispatch table (`Map.set`, so a later
entry overwrites an earlier one of the same name). -/
def registerPlugin (pm : PluginManager) (plugin : Plugin) : PluginManager :=
  { plugins := jsSet pm.plugins plugin.name plugin,
    tools := plugin.tools.foldl (fun acc tool => jsSet acc tool.name tool) pm.tools }

/-- `PluginManager.unregisterPlugin`: when the plugin exists, every tool name it
lists is deleted from the dispatch table (regardless of which plugin's tool
currently occupies that name) and the plugin entry is removed; unknown names
are a no-op. -/
def unregisterPlugin (pm : PluginManager) (pluginName : String) : PluginManager :=
  match jsGet pm.plugins pluginName with
  | none => pm
  | some plugin =>
      { plugins := jsDelete pm.plugins pluginName,
        tools := plugin.tools.foldl (fun acc tool => jsDelete acc tool.name) pm.tools }

/-- `PluginManager.getPlugin`. -/
def getPlugin (pm : PluginManager) (name : String) : Option Plugin :=
  jsGet pm.plugins name

/-- `PluginManager.getTool`. -/
def getTool (pm : PluginManager) (name : String) : Option Tool :=
  jsGet pm.tools name

/-- `PluginManager.getAllTools`. -/
def getAllTools (pm : PluginManager) : List Tool := jsValues pm.tools

/-- `PluginManager.executeTool`: an unknown name throws `Tool not found: <name>`;
a throwing executor is logged and then RETHROWN (the catch block ends in
`throw error`), not converted into a result; on success the measured
wall-clock duration (a parameter here) is spread into the returned object. -/
def executeTool (pm : PluginManager) (toolName : String) (params : JsonText)
    (elapsed : Nat) : Except String ExecutedToolResult :=
  match jsGet pm.tools toolName with
  | none => Except.error ("Tool not found: " ++ toolName)
  | some tool =>
      match tool.execute params with
      | Except.ok result =>
          Except.ok { success := result.success, data := result.data,
                      error := result.error, executionTime := elapsed }
      | Except.error e => Except.error e

end PluginManager

/-! ## Conversation orchestrator: `AIAssistant` -/

/-- Message roles. -/
inductive Role where
  | system
  | user
  | assistant
  | tool
deriving DecidableEq

/-- The metadata record attached to a `Message`: the orchestrator reads and
writes `toolCallId` and `error`; caller-supplied metadata is opaque. -/
structure MsgMetadata where
  toolCallId : Option String := none
  error : Option String := none
  extra : Option JsonText := none
deriving DecidableEq

/-- A conversation `Message`. -/
structure Message where
  role : Role
  content : String
  timestamp : Nat
  metadata : Option MsgMetadata := none
deriving DecidableEq

/-- A tool call requested by the assistant reply. -/
structure ToolCallFunction where
  name : String
  arguments : JsonText
deriving DecidableEq

structure ToolCall where
  id : String
  type : String
  function : ToolCallFunction
deriving DecidableEq

/-- `ToolResponse` produced by `executeToolCalls`. -/
structure ToolResponse where
  toolCallId : String
  content : String
  error : Option String := none
deriving DecidableEq

/-- Per-conversation state. -/
structure ConversationContext where
  messages : List Message
  tools : List Tool
  createdAt : Nat

/-- The message shape sent to the chat-completions API: tool-role messages
carry `tool_call_id` (`m.metadata?.toolCallId || ''`). -/
structure WireMsg where
  role : Role
  content : String
  toolCallId : Option String := none
deriving DecidableEq

/-- The per-message mapping applied before each provider call. -/
def toWire (m : Message) : WireMsg :=
  if m.role = Role.tool then
    { role := m.role, content := m.content,
      toolCallId := some ((m.metadata.bind (fun md => md.toolCallId)).getD "") }
  else { role := m.role, content := m.content }

/-- A tool definition as formatted for the OpenAI API (`formatToolsForOpenAI`). -/
structure OpenAIToolDef where
  type : String
  name : String
  description : String
  parameters : ToolParameters

def formatToolsForOpenAI (tools : List Tool) : List OpenAIToolDef :=
  tools.map (fun tool =>
    { type := "function", name := tool.name,
      description := tool.description, parameters := tool.parameters })

/-- The assistant message of `response.choices[0]`: `content` may be `null`,
`tool_calls` may be absent. -/
structure ProviderReply where
  content : Option String
  toolCalls : Option (List ToolCall) := none

/-- The provider endpoint as observed by the orchestrator: a function of the
request payload (mapped messages, and the tool catalog when offered — the
follow-up call omits it). The claims under verification concern calls that
complete. -/
abbrev ChatModel := List WireMsg → Option (List OpenAIToolDef) → ProviderReply

/-- `JSON.stringify({ ...result, executionTime })` for the tool-message content;
`undefined` fields are omitted as `JSON.stringify` does. -/
def stringifyExecutedResult (r : ExecutedToolResult) : String :=
  "\x7b\"success\":" ++ (cond r.success "true" "false") ++
    (match r.data with
     | some d => ",\"data\":" ++ d
     | none => "") ++
    (match r.error with
     | some e => ",\"error\":\"" ++ e ++ "\""
     | none => "") ++
    ",\"executionTime\":" ++ toString r.executionTime ++ "\x7d"

/-- `JSON.stringify({ error: errorMessage })`. -/
def stringifyError (e : String) : String :=
  "\x7b\"error\":\"" ++ e ++ "\"\x7d"

/-- In-memory state of an `AIAssistant` instance. -/
structure AIAssistantState where
  conversations : JsMap ConversationContext

namespace AIAssistant

/-- Stand-in for `getSystemPrompt()` (a fixed capability-describing template
embedding the current date); its exact text plays no role in the verified
properties and is abbreviated here. -/
def getSystemPrompt (now : Nat) : String :=
  "You are a highly intelligent AI assistant. Current date and time: " ++ toString now

/-- `AIAssistant.createConversation`: seeds the conversation with one system
message and a snapshot of the current tool catalog; the generated id is a
parameter. -/
def createConversation (st : AIAssistantState) (pm : PluginManager)
    (conversationId : String) (now : Nat) : AIAssistantState × String :=
  let context : ConversationContext :=
    { messages := [{ role := Role.system, content := getSystemPrompt now, timestamp := now }],
      tools := PluginManager.getAllTools pm,
      createdAt := now }
  (⟨jsSet st.conversations conversationId context⟩, conversationId)

/-- The response `executeToolCalls` accumulates for one tool call: a caught
failure (of `JSON.parse` or `executeTool`) is recorded as an error response
whose content is `JSON.stringify({error})`. -/
def toolCallResponseFor (pm : PluginManager) (elapsed : Nat) (toolCall : ToolCall) :
    ToolResponse :=
  match PluginManager.executeTool pm toolCall.function.name
      toolCall.function.arguments elapsed with
  | Except.ok result =>
      { toolCallId := toolCall.id, content := stringifyExecutedResult result }
  | Except.error e =>
      { toolCallId := toolCall.id, content := stringifyError e, error := some e }

/-- `AIAssistant.executeToolCalls`: runs the requested calls sequentially in
array order and accumulates one response per call in that order. -/
def executeToolCalls (pm : PluginManager) (toolCalls : List ToolCall)
    (elapsed : Nat) : List ToolResponse :=
  toolCalls.map (toolCallResponseFor pm elapsed)

/-- The result shape of `sendMessage`. -/
structure SendResult where
  response : String
  toolCalls : Option (List ToolCall) := none

/-- The user message literal `sendMessage` appends. -/
def userMessageFor (content : String) (metadata : Option MsgMetadata) (now : Nat) : Message :=
  { role := Role.user, content := content, timestamp := now, metadata := metadata }

/-- The assistant message literal `sendMessage` appends for a provider reply
(`content || ''`). -/
def assistantMessageFor (reply : ProviderReply) (now : Nat) : Message :=
  { role := Role.assistant, content := reply.content.getD "", timestamp := now }

/-- The tool-role message literal `sendMessage` appends for one `ToolResponse`. -/
def toolMessageOf (now : Nat) (tr : ToolResponse) : Message :=
  { role := Role.tool, content := tr.content, timestamp := now,
    metadata := some { toolCallId := some tr.toolCallId, error := tr.error } }

/-- The tool-role message appended for one requested tool call. -/
def toolMessageFor (pm : PluginManager) (elapsed now : Nat) : ToolCall → Message :=
  toolMessageOf now ∘ toolCallResponseFor pm elapsed

/-- `AIAssistant.sendMessage`: appends the user message, calls the provider with
the mapped transcript and the conversation's tool catalog, appends the
assistant reply; when the reply requests tool calls it executes them in order,
appends one tool message per call, issues a follow-up provider call without the
tool catalog and appends/returns that reply; otherwise the first reply is the
final text. An unknown conversation id throws before any mutation. -/
def sendMessage (st : AIAssistantState) (pm : PluginManager) (callModel : ChatModel)
    (conversationId content : String) (metadata : Option MsgMetadata)
    (now elapsed : Nat) : Except String (AIAssistantState × SendResult) :=
  match jsGet st.conversations conversationId with
  | none => Except.error ("Conversation not found: " ++ conversationId)
  | some context =>
      let msgs1 := context.messages ++ [userMessageFor content metadata now]
      let response := callModel (msgs1.map toWire) (some (formatToolsForOpenAI context.tools))
      let msgs2 := msgs1 ++ [assistantMessageFor response now]
      match response.toolCalls with
      | some toolCalls =>
          if 0 < toolCalls.length then
            let toolMsgs := (executeToolCalls pm toolCalls elapsed).map (toolMessageOf now)
            let msgs3 := msgs2 ++ toolMsgs
            let followUp := callModel (msgs3.map toWire) none
            Except.ok
              (⟨jsSet st.conversations conversationId
                  { context with messages := msgs3 ++ [assistantMessageFor followUp now] }⟩,
               { response := followUp.content.getD "" })
          else
            Except.ok
              (⟨jsSet st.conversations conversationId { context with messages := msgs2 }⟩,
               { response := response.content.getD "", toolCalls := some toolCalls })
      | none =>
          Except.ok
            (⟨jsSet st.conversations conversationId { context with messages := msgs2 }⟩,
             { response := response.content.getD "", toolCalls := none })

end AIAssistant

/-! ## Provider registry: `AIProviderManager` -/

/-- `AIMessage` as consumed by provider clients. -/
structure AIMessage where
  role : String
  content : String

/-- `AIResponse` returned by a provider client's `chat`. -/
structure AIResponse where
  content : String
  toolCalls : Option (List ToolCall) := none

/-- One streamed chunk: `{content, done}`. -/
structure AIStreamChunk where
  content : String
  done : Bool
deriving DecidableEq

/-- A bound provider client: `chat`, plus the optional native `streamChat`
generator (its lazily yielded sequence is modelled by the list of chunks). -/
structure AIProviderClient where
  chat : List AIMessage → Option (List OpenAIToolDef) → AIResponse
  streamChat : Option (List AIMessage → Option (List OpenAIToolDef) → List AIStreamChunk) := none

/-- The slice of `AIProviderManager` state the chat entry points read. -/
structure AIProviderManagerState where
  currentProvider : Option AIProviderClient := none

namespace AIProviderManager

/-- `AIProviderManager.chat`: throws when no provider is configured. -/
def chat (st : AIProviderManagerState) (messages : List AIMessage)
    (tools : Option (List OpenAIToolDef)) : Except String AIResponse :=
  match st.currentProvider with
  | none => Except.error "No AI provider configured. Call setProvider() first."
  | some client => Except.ok (client.chat messages tools)

/-- `AIProviderManager.streamChat`: delegates to the client's native streaming
generator when present; otherwise falls back to the non-streaming `chat` call
and yields the single chunk `{ content: response.content, done: true }`. -/
def streamChat (st : AIProviderManagerState) (messages : List AIMessage)
    (tools : Option (List OpenAIToolDef)) : Except String (List AIStreamChunk) :=
  match st.currentProvider with
  | none => Except.error "No AI provider configured. Call setProvider() first."
  | some client =>
      match client.streamChat with
      | some stream => Except.ok (stream messages tools)
      | none =>
          let response := client.chat messages tools
          Except.ok [{ content := response.content, done := true }]

end AIProviderManager

/-! ## Claims -/

/-- C1 — code bug in `ApiKeyManager.encrypt`. The spec's round-trip law
`get(add(name,provider,plaintext).id) = plaintext` fails for every plaintext of
at least 16 bytes: `encrypt` discards the `cipher.update` output
(`encrypted = cipher.final('hex')` where `+=` was intended), so only the final
CBC block is stored and `getKey` either throws a decryption error or returns a
strictly shorter byte string — never the stored plaintext. -/
theorem claimC1_roundtrip_fails_for_long_plaintext (st : KeyStore) (bc : BlockCipher)
    (henc : blockFn16 bc.enc)
    (hdec : ∀ b : List Nat, b.length = 16 → (bc.dec b).length = 16)
    (iv pt : List Nat) (hiv : iv.length = 16) (hivb : ∀ x ∈ iv, x < 256)
    (hpt : ∀ x ∈ pt, x < 256) (hlen : 16 ≤ pt.length)
    (keyId name provider : String) (now now' : Nat) (save save' : Except String Unit) :
    (ApiKeyManager.getKey
        (ApiKeyManager.addKey st bc iv keyId name provider pt now save).1
        bc keyId now' save').2 ≠ Except.ok (some pt) := by
  have hne := decrypt_encrypt_misses_long_plaintext bc henc hdec iv pt hiv hivb hpt hlen
  have h1 : (ApiKeyManager.addKey st bc iv keyId name provider pt now save).1 =
      ⟨jsSet st.keys keyId
        { id := keyId, name := name, provider := provider,
          encryptedKey := ApiKeyManager.encrypt bc iv pt, createdAt := now,
          lastUsed := none }⟩ := by
    unfold ApiKeyManager.addKey
    cases save <;> rfl
  rw [h1]
  unfold ApiKeyManager.getKey
  rw [jsGet_set_self]
  dsimp only
  cases hd : ApiKeyManager.decrypt bc (ApiKeyManager.encrypt bc iv pt) with
  | error e => simp
  | ok apiKey =>
      have hne2 : apiKey ≠ pt := fun he => hne (he ▸ hd)
      cases save' <;> simp [hne2]

/-- C1 (witness): the round-trip failure at a concrete 16-byte plaintext with a
concrete (identity) block transformation and zero IV. -/
theorem claimC1_witness :
    (ApiKeyManager.getKey
        (ApiKeyManager.addKey ⟨[]⟩ ⟨fun b => b, fun b => b⟩ (List.replicate 16 0)
          "id1" "mykey" "openai" ((List.range 16).map (fun i => 48 + i)) 0
          (Except.ok ())).1
        ⟨fun b => b, fun b => b⟩ "id1" 1 (Except.ok ())).2 ≠
      Except.ok (some ((List.range 16).map (fun i => 48 + i))) :=
  claimC1_roundtrip_fails_for_long_plaintext ⟨[]⟩ ⟨fun b => b, fun b => b⟩
    (fun _ hb hx => ⟨hb, hx⟩) (fun _ hb => hb) (List.replicate 16 0)
    ((List.range 16).map (fun i => 48 + i)) (by decide) (by decide) (by decide)
    (by decide) "id1" "mykey" "openai" 0 1 (Except.ok ()) (Except.ok ())

/-- C2 (counterexample): a registered tool whose executor throws. `executeTool`
RETHROWS the error (its catch block ends in `throw error`) instead of returning
a `success:false` ToolResult, so a thrown error does propagate out of dispatch. -/
theorem claimC2_counterexample :
    PluginManager.executeTool
      ⟨[], [("boom",
        { name := "boom", description := "always throws",
          parameters := {}, execute := fun _ => Except.error "kaboom" })]⟩
      "boom" "" 0 = Except.error "kaboom" := rfl

/-- C2 — amended: `executeTool` catches, logs and rethrows executor exceptions,
so the throw propagates out of dispatch itself; it is the orchestrator's
`executeToolCalls` that catches it and converts it into an error-tagged
`ToolResponse`, so it never escapes the turn's tool-execution phase. -/
theorem claimC2_executor_throw_rethrown_then_caught (pm : PluginManager)
    (toolName : String) (tool : Tool) (params : JsonText) (elapsed : Nat)
    (e callId ty : String)
    (hreg : PluginManager.getTool pm toolName = some tool)
    (hthrow : tool.execute params = Except.error e) :
    PluginManager.executeTool pm toolName params elapsed = Except.error e ∧
    AIAssistant.executeToolCalls pm
        [{ id := callId, type := ty, function := { name := toolName, arguments := params } }]
        elapsed =
      [{ toolCallId := callId, content := stringifyError e, error := some e }] := by
  have hexec : PluginManager.executeTool pm toolName params elapsed = Except.error e := by
    unfold PluginManager.executeTool
    rw [show jsGet pm.tools toolName = some tool from hreg]
    dsimp only
    rw [hthrow]
  refine ⟨hexec, ?_⟩
  unfold AIAssistant.executeToolCalls AIAssistant.toolCallResponseFor
  simp only [List.map_cons, List.map_nil]
  rw [show PluginManager.executeTool pm toolName params elapsed = Except.error e from hexec]

/-- C2 (witness): amended behaviour at a concrete registry and tool call. -/
theorem claimC2_witness :
    PluginManager.executeTool
        ⟨[], [("boom2",
          { name := "boom2", description := "always throws",
            parameters := {}, execute := fun _ => Except.error "bang" })]⟩
        "boom2" "" 7 = Except.error "bang" ∧
    AIAssistant.executeToolCalls
        ⟨[], [("boom2",
          { name := "boom2", description := "always throws",
            parameters := {}, execute := fun _ => Except.error "bang" })]⟩
        [{ id := "c9", type := "function",
           function := { name := "boom2", arguments := "" } }] 7 =
      [{ toolCallId := "c9", content := stringifyError "bang", error := some "bang" }] :=
  claimC2_executor_throw_rethrown_then_caught
    ⟨[], [("boom2",
      { name := "boom2", description := "always throws",
        parameters := {}, execute := fun _ => Except.error "bang" })]⟩
    "boom2"
    { name := "boom2", description := "always throws",
      parameters := {}, execute := fun _ => Except.error "bang" }
    "" 7 "bang" "c9" "function" rfl rfl

/-- C7 — for every unregistered name, `executeTool` throws
`Tool not found: <name>` — a caller-visible `Except.error` mentioning the
requested name, distinct from any `Except.ok` ToolResult. -/
theorem claimC7_unknown_tool_raises_not_found (pm : PluginManager) (toolName : String)
    (params : JsonText) (elapsed : Nat)
    (h : PluginManager.getTool pm toolName = none) :
    PluginManager.executeTool pm toolName params elapsed =
      Except.error ("Tool not found: " ++ toolName) := by
  unfold PluginManager.executeTool
  rw [show jsGet pm.tools toolName = none from h]

/-- C7 (witness): dispatch of `missing_tool` against an empty registry. -/
theorem claimC7_witness :
    PluginManager.executeTool ⟨[], []⟩ "missing_tool" "" 0 =
      Except.error ("Tool not found: " ++ "missing_tool") :=
  claimC7_unknown_tool_raises_not_found ⟨[], []⟩ "missing_tool" "" 0 rfl

theorem jsSet_mem_values {α : Type u} (m : JsMap α) (k : String) (v : α) :
    v ∈ jsValues (jsSet m k v) := by
  induction m with
  | nil => simp [jsSet, jsValues]
  | cons hd tl ih =>
      obtain ⟨k₀, v₀⟩ := hd
      by_cases h : k₀ = k
      · simp [jsSet, jsValues, h]
      · simp only [jsSet, if_neg h, jsValues, List.map_cons, List.mem_cons]
        right
        exact ih

/-- C3 (counterexample): `addKey` with a failing disk write rethrows the error,
yet the freshly inserted record is still visible in the in-memory index —
contrary to the claim that the in-memory state is left unchanged. -/
theorem claimC3_counterexample :
    (ApiKeyManager.addKey ⟨[]⟩ ⟨fun b => b, fun b => b⟩ (List.replicate 16 0)
        "id1" "mykey" "openai" [1, 2, 3] 0 (Except.error "disk full")).2 =
      Except.error "disk full" ∧
    (jsGet (ApiKeyManager.addKey ⟨[]⟩ ⟨fun b => b, fun b => b⟩ (List.replicate 16 0)
        "id1" "mykey" "openai" [1, 2, 3] 0 (Except.error "disk full")).1.keys
      "id1").isSome = true := ⟨rfl, rfl⟩

/-- C3 — amended: a persistence failure is rethrown to the immediate caller, but
the in-memory mutation happens BEFORE the write and is NOT rolled back: after a
failing `addKey` the new record is present in memory, and after a failing
`deleteKey` the record is gone from memory. -/
theorem claimC3_failed_save_rethrown_mutation_kept (st : KeyStore) (bc : BlockCipher)
    (iv : List Nat) (keyId name provider : String) (apiKey : List Nat) (now : Nat)
    (e : String) (sk : StoredApiKey)
    (hsk : jsGet st.keys keyId = some sk)
    (hnodup : (st.keys.map Prod.fst).Nodup) :
    ((ApiKeyManager.addKey st bc iv keyId name provider apiKey now (Except.error e)).2 =
        Except.error e ∧
      jsGet (ApiKeyManager.addKey st bc iv keyId name provider apiKey now
          (Except.error e)).1.keys keyId =
        some { id := keyId, name := name, provider := provider,
               encryptedKey := ApiKeyManager.encrypt bc iv apiKey,
               createdAt := now, lastUsed := none }) ∧
    ((ApiKeyManager.deleteKey st keyId (Except.error e)).2 = Except.error e ∧
      jsGet (ApiKeyManager.deleteKey st keyId (Except.error e)).1.keys keyId = none) := by
  refine ⟨⟨rfl, jsGet_set_self _ _ _⟩, ?_⟩
  unfold ApiKeyManager.deleteKey
  rw [hsk]
  exact ⟨rfl, jsGet_delete_self _ _ hnodup⟩

/-- C3 (witness): the amended behaviour at a concrete one-record store. -/
theorem claimC3_witness :
    ((ApiKeyManager.addKey
        ⟨[("id1", { id := "id1", name := "k", provider := "p", encryptedKey := [],
                    createdAt := 0, lastUsed := none })]⟩
        ⟨fun b => b, fun b => b⟩ [] "id1" "n" "p" [5] 3 (Except.error "disk full")).2 =
        Except.error "disk full" ∧
      jsGet (ApiKeyManager.addKey
          ⟨[("id1", { id := "id1", name := "k", provider := "p", encryptedKey := [],
                      createdAt := 0, lastUsed := none })]⟩
          ⟨fun b => b, fun b => b⟩ [] "id1" "n" "p" [5] 3 (Except.error "disk full")).1.keys
          "id1" =
        some { id := "id1", name := "n", provider := "p",
               encryptedKey := ApiKeyManager.encrypt ⟨fun b => b, fun b => b⟩ [] [5],
               createdAt := 3, lastUsed := none }) ∧
    ((ApiKeyManager.deleteKey
        ⟨[("id1", { id := "id1", name := "k", provider := "p", encryptedKey := [],
                    createdAt := 0, lastUsed := none })]⟩
        "id1" (Except.error "disk full")).2 = Except.error "disk full" ∧
      jsGet (ApiKeyManager.deleteKey
          ⟨[("id1", { id := "id1", name := "k", provider := "p", encryptedKey := [],
                      createdAt := 0, lastUsed := none })]⟩
          "id1" (Except.error "disk full")).1.keys "id1" = none) :=
  claimC3_failed_save_rethrown_mutation_kept
    ⟨[("id1", { id := "id1", name := "k", provider := "p", encryptedKey := [],
                createdAt := 0, lastUsed := none })]⟩
    ⟨fun b => b, fun b => b⟩ [] "id1" "n" "p" [5] 3 "disk full"
    { id := "id1", name := "k", provider := "p", encryptedKey := [],
      createdAt := 0, lastUsed := none }
    rfl (by decide)

/-- C4 (counterexample): after adding a secret, `getAllKeys` returns the full
stored record whose `encryptedKey` field is exactly the (non-empty) ciphertext
produced by `encrypt` — the ciphertext IS returned by list. -/
theorem claimC4_counterexample :
    (ApiKeyManager.getAllKeys
        (ApiKeyManager.addKey ⟨[]⟩ ⟨fun b => b, fun b => b⟩ (List.replicate 16 0)
          "id1" "mykey" "openai" [115, 51, 99, 114, 51, 116] 0 (Except.ok ())).1).map
      (fun k => k.encryptedKey) =
      [ApiKeyManager.encrypt ⟨fun b => b, fun b => b⟩ (List.replicate 16 0)
        [115, 51, 99, 114, 51, 116]] ∧
    (ApiKeyManager.encrypt ⟨fun b => b, fun b => b⟩ (List.replicate 16 0)
        [115, 51, 99, 114, 51, 116]).length = 65 := ⟨rfl, rfl⟩

/-- C4 — amended: `getAllKeys` returns the stored records in full — id, name,
provider, timestamps AND the `encryptedKey` ciphertext field. No plaintext
field exists on a record (only the ciphertext of the plaintext is stored), but
the ciphertext field is returned. -/
theorem claimC4_list_returns_full_records (st : KeyStore) :
    ApiKeyManager.getAllKeys st = jsValues st.keys ∧
    ∀ (bc : BlockCipher) (iv : List Nat) (keyId name provider : String)
      (apiKey : List Nat) (now : Nat) (save : Except String Unit),
      ∃ k ∈ ApiKeyManager.getAllKeys
          (ApiKeyManager.addKey st bc iv keyId name provider apiKey now save).1,
        k.encryptedKey = ApiKeyManager.encrypt bc iv apiKey := by
  refine ⟨rfl, ?_⟩
  intro bc iv keyId name provider apiKey now save
  refine ⟨{ id := keyId, name := name, provider := provider,
            encryptedKey := ApiKeyManager.encrypt bc iv apiKey,
            createdAt := now, lastUsed := none }, ?_, rfl⟩
  have h1 : (ApiKeyManager.addKey st bc iv keyId name provider apiKey now save).1 =
      ⟨jsSet st.keys keyId
        { id := keyId, name := name, provider := provider,
          encryptedKey := ApiKeyManager.encrypt bc iv apiKey,
          createdAt := now, lastUsed := none }⟩ := by
    unfold ApiKeyManager.addKey
    cases save <;> rfl
  rw [h1]
  exact jsSet_mem_values _ _ _

/-- C4 (witness): the amended statement at a concrete store and secret. -/
theorem claimC4_witness :
    ApiKeyManager.getAllKeys ⟨[]⟩ = jsValues ([] : JsMap StoredApiKey) ∧
    ∀ (bc : BlockCipher) (iv : List Nat) (keyId name provider : String)
      (apiKey : List Nat) (now : Nat) (save : Except String Unit),
      ∃ k ∈ ApiKeyManager.getAllKeys
          (ApiKeyManager.addKey ⟨[]⟩ bc iv keyId name provider apiKey now save).1,
        k.encryptedKey = ApiKeyManager.encrypt bc iv apiKey :=
  claimC4_list_returns_full_records ⟨[]⟩

/-- Modelled from the spec: the claimed shape of the synthesized fallback
stream — exactly one chunk with `done:false` carrying the non-streaming chat
content, followed by a separate done marker. -/
def specFallbackStreamShape (chatContent : String) (chunks : List AIStreamChunk) : Bool :=
  match chunks with
  | [c1, c2] => c1.content == chatContent && c1.done == false && c2.done == true
  | _ => false

/-- C5 (counterexample): against an active client with no native streaming,
`streamChat` yields exactly ONE chunk `{content, done: true}` — not a
`done:false` content chunk followed by a separate done marker. -/
theorem claimC5_counterexample :
    AIProviderManager.streamChat
        ⟨some { chat := fun _ _ => { content := "hi" }, streamChat := none }⟩ [] none =
      Except.ok [{ content := "hi", done := true }] ∧
    specFallbackStreamShape "hi" [{ content := "hi", done := true }] = false := ⟨rfl, rfl⟩

/-- C5 — amended: for an active client lacking native `streamChat`, the registry
synthesizes a single-chunk stream whose only element carries the non-streaming
`chat` content together with the done flag: `{content: chat(...).content,
done: true}`. -/
theorem claimC5_fallback_single_done_chunk (st : AIProviderManagerState)
    (client : AIProviderClient) (messages : List AIMessage)
    (tools : Option (List OpenAIToolDef))
    (hcur : st.currentProvider = some client)
    (hnostream : client.streamChat = none) :
    AIProviderManager.streamChat st messages tools =
      Except.ok [{ content := (client.chat messages tools).content, done := true }] := by
  unfold AIProviderManager.streamChat
  rw [hcur]
  dsimp only
  rw [hnostream]

/-- C5 (witness): the amended fallback at a concrete client. -/
theorem claimC5_witness :
    AIProviderManager.streamChat
        ⟨some { chat := fun _ _ => { content := "pong" }, streamChat := none }⟩ [] none =
      Except.ok [{ content := ("pong" : String), done := true }] :=
  claimC5_fallback_single_done_chunk
    ⟨some { chat := fun _ _ => { content := "pong" }, streamChat := none }⟩
    { chat := fun _ _ => { content := "pong" }, streamChat := none } [] none rfl rfl

theorem jsDelete_keys_sublist {α : Type u} (m : JsMap α) (k : String) :
    ((jsDelete m k).map Prod.fst).Sublist (m.map Prod.fst) := by
  induction m with
  | nil => simp [jsDelete]
  | cons hd tl ih =>
      obtain ⟨k₀, v₀⟩ := hd
      by_cases h : k₀ = k
      · simp only [jsDelete, if_pos h, List.map_cons]
        exact List.sublist_cons_self k₀ (tl.map Prod.fst)
      · simp only [jsDelete, if_neg h, List.map_cons]
        exact ih.cons₂ k₀

theorem jsDelete_nodup_keys {α : Type u} (m : JsMap α) (k : String)
    (h : (m.map Prod.fst).Nodup) : ((jsDelete m k).map Prod.fst).Nodup :=
  h.sublist (jsDelete_keys_sublist m k)

theorem jsSet_keys {α : Type u} (m : JsMap α) (k : String) (v : α) :
    (jsSet m k v).map Prod.fst =
      if k ∈ m.map Prod.fst then m.map Prod.fst else m.map Prod.fst ++ [k] := by
  induction m with
  | nil => simp [jsSet]
  | cons hd tl ih =>
      obtain ⟨k₀, v₀⟩ := hd
      by_cases h : k₀ = k
      · subst h
        simp [jsSet]
      · have hne : ¬k = k₀ := fun he => h he.symm
        simp only [jsSet, if_neg h, List.map_cons, ih, List.mem_cons]
        by_cases hmem : k ∈ tl.map Prod.fst
        · simp [hmem, hne]
        · simp [hmem, hne]

theorem jsSet_nodup_keys {α : Type u} (m : JsMap α) (k : String) (v : α)
    (h : (m.map Prod.fst).Nodup) : ((jsSet m k v).map Prod.fst).Nodup := by
  rw [jsSet_keys]
  by_cases hmem : k ∈ m.map Prod.fst
  · simpa [hmem] using h
  · simp [hmem, List.nodup_append, h]

theorem foldlSetTools_nodup_keys (ts : List Tool) : ∀ (m : JsMap Tool),
    (m.map Prod.fst).Nodup →
    ((ts.foldl (fun acc tool => jsSet acc tool.name tool) m).map Prod.fst).Nodup := by
  induction ts with
  | nil => intro m h; exact h
  | cons t ts ih =>
      intro m h
      exact ih _ (jsSet_nodup_keys _ _ _ h)

theorem foldlSetTools_get (ts : List Tool) : ∀ (m : JsMap Tool) (n : String),
    jsGet (ts.foldl (fun acc tool => jsSet acc tool.name tool) m) n =
      match (ts.filter (fun t => t.name == n)).getLast? with
      | some t => some t
      | none => jsGet m n := by
  induction ts with
  | nil => intro m n; simp
  | cons t ts ih =>
      intro m n
      simp only [List.foldl_cons]
      rw [ih]
      by_cases hn : t.name = n
      · rw [List.filter_cons, if_pos (by simp [hn])]
        cases hF : (ts.filter (fun t => t.name == n)).getLast? with
        | some u =>
            have hne : ts.filter (fun t => t.name == n) ≠ [] := by
              intro he
              rw [he] at hF
              cases hF
            obtain ⟨f, fs, hfs⟩ := List.exists_cons_of_ne_nil hne
            rw [hfs]
            rw [hfs] at hF
            rw [List.getLast?_cons_cons, hF]
        | none =>
            have hnil : ts.filter (fun t => t.name == n) = [] := by
              cases hcase : ts.filter (fun t => t.name == n) with
              | nil => rfl
              | cons f fs =>
                  rw [hcase] at hF
                  rcases List.getLast?_eq_none_iff.mp hF with h
                  cases h
            rw [hnil, List.getLast?_singleton, hn, jsGet_set_self]
      · rw [List.filter_cons, if_neg (by simp [hn])]
        cases hF : (ts.filter (fun t => t.name == n)).getLast? with
        | some u => rfl
        | none => exact jsGet_set_ne _ _ _ _ hn

theorem foldlDeleteTools_get_not_mem (ts : List Tool) : ∀ (m : JsMap Tool) (n : String),
    n ∉ ts.map Tool.name →
    jsGet (ts.foldl (fun acc tool => jsDelete acc tool.name) m) n = jsGet m n := by
  induction ts with
  | nil => intro m n _; rfl
  | cons t ts ih =>
      intro m n hn
      simp only [List.map_cons, List.mem_cons] at hn
      push_neg at hn
      simp only [List.foldl_cons]
      rw [ih _ _ hn.2, jsGet_delete_ne _ _ _ (fun he => hn.1 he.symm)]

theorem foldlDeleteTools_get_mem (ts : List Tool) : ∀ (m : JsMap Tool) (n : String),
    (m.map Prod.fst).Nodup → n ∈ ts.map Tool.name →
    jsGet (ts.foldl (fun acc tool => jsDelete acc tool.name) m) n = none := by
  induction ts with
  | nil =>
      intro m n _ h
      simp at h
  | cons t ts ih =>
      intro m n hnd hmem
      simp only [List.foldl_cons]
      by_cases hrest : n ∈ ts.map Tool.name
      · exact ih _ _ (jsDelete_nodup_keys _ _ hnd) hrest
      · simp only [List.map_cons, List.mem_cons] at hmem
        rcases hmem with heq | hmem
        · subst heq
          rw [foldlDeleteTools_get_not_mem ts _ _ hrest]
          exact jsGet_delete_self _ _ hnd
        · exact absurd hmem hrest

/-- C10 — name collisions in the flat dispatch table: registering a bundle
overwrites same-named tools (the LAST registered occurrence wins), and
unregistering a bundle deletes every tool name it lists even when another
still-registered bundle declares a tool of the same name; dispatch of that name
then raises `Tool not found` although the other bundle remains registered. -/
theorem claimC10_last_wins_and_unregister_removes_shared_names
    (pm : PluginManager) (p1 p2 : Plugin) (tname : String)
    (params : JsonText) (elapsed : Nat)
    (hnames : p1.name ≠ p2.name)
    (_h1 : tname ∈ p1.tools.map Tool.name)
    (h2 : tname ∈ p2.tools.map Tool.name)
    (hnodup : (pm.tools.map Prod.fst).Nodup) :
    (PluginManager.getTool
        (PluginManager.registerPlugin (PluginManager.registerPlugin pm p1) p2) tname =
      (p2.tools.filter (fun t => t.name == tname)).getLast?) ∧
    PluginManager.getTool
        (PluginManager.unregisterPlugin
          (PluginManager.registerPlugin (PluginManager.registerPlugin pm p1) p2)
          p2.name) tname = none ∧
    PluginManager.getPlugin
        (PluginManager.unregisterPlugin
          (PluginManager.registerPlugin (PluginManager.registerPlugin pm p1) p2)
          p2.name) p1.name = some p1 ∧
    PluginManager.executeTool
        (PluginManager.unregisterPlugin
          (PluginManager.registerPlugin (PluginManager.registerPlugin pm p1) p2)
          p2.name) tname params elapsed =
      Except.error ("Tool not found: " ++ tname) := by
  obtain ⟨u2, hu2⟩ : ∃ u, (p2.tools.filter (fun t => t.name == tname)).getLast? = some u := by
    obtain ⟨t, ht, htn⟩ := List.exists_of_mem_map h2
    have : t ∈ p2.tools.filter (fun t => t.name == tname) := by
      rw [List.mem_filter]
      exact ⟨ht, by simp [htn]⟩
    have hne : p2.tools.filter (fun t => t.name == tname) ≠ [] :=
      List.ne_nil_of_mem this
    rcases hg : (p2.tools.filter (fun t => t.name == tname)).getLast? with _ | u
    · exact absurd (List.getLast?_eq_none_iff.mp hg) hne
    · exact ⟨u, hg⟩
  have hreg : PluginManager.getTool
      (PluginManager.registerPlugin (PluginManager.registerPlugin pm p1) p2) tname =
      some u2 := by
    unfold PluginManager.getTool PluginManager.registerPlugin
    dsimp only
    rw [foldlSetTools_get, hu2]
  have hnodup2 : (((PluginManager.registerPlugin
      (PluginManager.registerPlugin pm p1) p2).tools).map Prod.fst).Nodup := by
    unfold PluginManager.registerPlugin
    dsimp only
    exact foldlSetTools_nodup_keys _ _ (foldlSetTools_nodup_keys _ _ hnodup)
  have hunregtools : (PluginManager.unregisterPlugin
      (PluginManager.registerPlugin (PluginManager.registerPlugin pm p1) p2)
      p2.name).tools =
      p2.tools.foldl (fun acc tool => jsDelete acc tool.name)
        ((PluginManager.registerPlugin (PluginManager.registerPlugin pm p1) p2).tools) := by
    unfold PluginManager.unregisterPlugin
    rw [show jsGet (PluginManager.registerPlugin
        (PluginManager.registerPlugin pm p1) p2).plugins p2.name = some p2 from
      jsGet_set_self _ _ _]
  have hgone : PluginManager.getTool
      (PluginManager.unregisterPlugin
        (PluginManager.registerPlugin (PluginManager.registerPlugin pm p1) p2)
        p2.name) tname = none := by
    unfold PluginManager.getTool
    rw [hunregtools]
    exact foldlDeleteTools_get_mem _ _ _ hnodup2 h2
  refine ⟨by rw [hreg, hu2], hgone, ?_, ?_⟩
  · unfold PluginManager.getPlugin PluginManager.unregisterPlugin
    rw [show jsGet (PluginManager.registerPlugin
        (PluginManager.registerPlugin pm p1) p2).plugins p2.name = some p2 from
      jsGet_set_self _ _ _]
    dsimp only
    unfold PluginManager.registerPlugin
    dsimp only
    rw [jsGet_delete_ne _ _ _ (fun he => hnames he.symm),
        jsGet_set_ne _ _ _ _ (fun he => hnames he.symm), jsGet_set_self]
  · unfold PluginManager.executeTool
    rw [show jsGet (PluginManager.unregisterPlugin
        (PluginManager.registerPlugin (PluginManager.registerPlugin pm p1) p2)
        p2.name).tools tname = none from hgone]

/-- C10 (witness): two concrete single-tool bundles sharing the tool name `t`;
after registering both and unregistering the second, dispatching `t` raises
`Tool not found` while the first bundle is still registered. -/
theorem claimC10_witness :
    PluginManager.executeTool
        (PluginManager.unregisterPlugin
          (PluginManager.registerPlugin
            (PluginManager.registerPlugin ⟨[], []⟩
              { name := "alpha", version := "1", description := "", enabled := true,
                tools := [{ name := "t", description := "a", parameters := {},
                            execute := fun _ => Except.ok { success := true } }] })
            { name := "beta", version := "1", description := "", enabled := true,
              tools := [{ name := "t", description := "b", parameters := {},
                          execute := fun _ => Except.ok { success := false } }] })
          "beta") "t" "" 0 =
      Except.error ("Tool not found: " ++ "t") :=
  (claimC10_last_wins_and_unregister_removes_shared_names ⟨[], []⟩
    { name := "alpha", version := "1", description := "", enabled := true,
      tools := [{ name := "t", description := "a", parameters := {},
                  execute := fun _ => Except.ok { success := true } }] }
    { name := "beta", version := "1", description := "", enabled := true,
      tools := [{ name := "t", description := "b", parameters := {},
                  execute := fun _ => Except.ok { success := false } }] }
    "t" "" 0 (by decide) (by decide) (by decide) (by decide)).2.2.2

theorem toolMsgs_map_eq (pm : PluginManager) (tcs : List ToolCall) (elapsed now : Nat) :
    (AIAssistant.executeToolCalls pm tcs elapsed).map (AIAssistant.toolMessageOf now) =
      tcs.map (AIAssistant.toolMessageFor pm elapsed now) := by
  unfold AIAssistant.executeToolCalls AIAssistant.toolMessageFor
  rw [List.map_map]

/-- C6 — when the assistant reply requests tool calls, `sendMessage` executes
them sequentially in array order and appends exactly one tool-role message per
call, in that order, each tagged (via `metadata.toolCallId`) with the
originating call id; all of them sit between the first assistant message and
the final (follow-up) assistant message of the turn. -/
theorem claimC6_tool_results_in_request_order
    (st : AIAssistantState) (pm : PluginManager) (callModel : ChatModel)
    (conversationId content : String) (metadata : Option MsgMetadata) (now elapsed : Nat)
    (context : ConversationContext) (tcs : List ToolCall) (reply followUp : ProviderReply)
    (hctx : jsGet st.conversations conversationId = some context)
    (hreply : callModel
        ((context.messages ++ [AIAssistant.userMessageFor content metadata now]).map toWire)
        (some (formatToolsForOpenAI context.tools)) = reply)
    (htc : reply.toolCalls = some tcs)
    (hne : tcs ≠ [])
    (hfollow : callModel
        ((context.messages ++ [AIAssistant.userMessageFor content metadata now] ++
          [AIAssistant.assistantMessageFor reply now] ++
          tcs.map (AIAssistant.toolMessageFor pm elapsed now)).map toWire) none = followUp) :
    AIAssistant.sendMessage st pm callModel conversationId content metadata now elapsed =
      Except.ok (⟨jsSet st.conversations conversationId
          { context with messages :=
              context.messages ++ [AIAssistant.userMessageFor content metadata now] ++
              [AIAssistant.assistantMessageFor reply now] ++
              (tcs.map (AIAssistant.toolMessageFor pm elapsed now)) ++
              [AIAssistant.assistantMessageFor followUp now] }⟩,
        { response := followUp.content.getD "" }) ∧
    ∀ tc ∈ tcs,
      (AIAssistant.toolMessageFor pm elapsed now tc).role = Role.tool ∧
      ((AIAssistant.toolMessageFor pm elapsed now tc).metadata.bind
        (fun md => md.toolCallId)) = some tc.id := by
  constructor
  · unfold AIAssistant.sendMessage
    rw [hctx]
    dsimp only
    rw [hreply, htc]
    dsimp only
    rw [if_pos (List.length_pos.mpr hne)]
    rw [toolMsgs_map_eq, hfollow]
  · intro tc _
    refine ⟨rfl, ?_⟩
    show ((AIAssistant.toolMessageOf now
      (AIAssistant.toolCallResponseFor pm elapsed tc)).metadata.bind
        (fun md => md.toolCallId)) = some tc.id
    unfold AIAssistant.toolCallResponseFor
    cases PluginManager.executeTool pm tc.function.name tc.function.arguments elapsed <;> rfl

/-- C6 (witness): a concrete transcript — the provider requests tool call `c1`
on the first pass; the tool message tagged `c1` lands between the two assistant
messages. -/
theorem claimC6_witness :
    AIAssistant.sendMessage ⟨[("c", { messages := [], tools := [], createdAt := 0 })]⟩
        ⟨[], []⟩
        (fun _ tools =>
          match tools with
          | some _ =>
              { content := some "use tool",
                toolCalls := some [{ id := "c1", type := "function",
                                     function := { name := "echo_tool", arguments := "" } }] }
          | none => { content := some "done", toolCalls := none })
        "c" "run" none 0 0 =
      Except.ok
        (⟨jsSet [("c", { messages := [], tools := [], createdAt := 0 })] "c"
            { messages :=
                ([] : List Message) ++ [AIAssistant.userMessageFor "run" none 0] ++
                [AIAssistant.assistantMessageFor
                  { content := some "use tool",
                    toolCalls := some [{ id := "c1", type := "function",
                                         function := { name := "echo_tool", arguments := "" } }] } 0] ++
                ([{ id := "c1", type := "function",
                    function := { name := "echo_tool", arguments := "" } }].map
                  (AIAssistant.toolMessageFor ⟨[], []⟩ 0 0)) ++
                [AIAssistant.assistantMessageFor
                  { content := some "done", toolCalls := none } 0],
              tools := [], createdAt := 0 }⟩,
         { response := "done" }) :=
  (claimC6_tool_results_in_request_order
    ⟨[("c", { messages := [], tools := [], createdAt := 0 })]⟩ ⟨[], []⟩
    (fun _ tools =>
      match tools with
      | some _ =>
          { content := some "use tool",
            toolCalls := some [{ id := "c1", type := "function",
                                 function := { name := "echo_tool", arguments := "" } }] }
      | none => { content := some "done", toolCalls := none })
    "c" "run" none 0 0 { messages := [], tools := [], createdAt := 0 }
    [{ id := "c1", type := "function", function := { name := "echo_tool", arguments := "" } }]
    { content := some "use tool",
      toolCalls := some [{ id := "c1", type := "function",
                           function := { name := "echo_tool", arguments := "" } }] }
    { content := some "done", toolCalls := none }
    rfl rfl rfl (List.cons_ne_nil _ _) rfl).1

/-- C8 — when the provider reply requests no tool calls (absent or empty), the
turn appends exactly the user message and one assistant message (+2 messages)
and returns the first assistant reply's content. -/
theorem claimC8_no_tool_calls_appends_exactly_two
    (st : AIAssistantState) (pm : PluginManager) (callModel : ChatModel)
    (conversationId content : String) (metadata : Option MsgMetadata) (now elapsed : Nat)
    (context : ConversationContext) (reply : ProviderReply)
    (hctx : jsGet st.conversations conversationId = some context)
    (hreply : callModel
        ((context.messages ++ [AIAssistant.userMessageFor content metadata now]).map toWire)
        (some (formatToolsForOpenAI context.tools)) = reply)
    (hnotc : reply.toolCalls.getD [] = []) :
    AIAssistant.sendMessage st pm callModel conversationId content metadata now elapsed =
      Except.ok (⟨jsSet st.conversations conversationId
          { context with messages :=
              context.messages ++ [AIAssistant.userMessageFor content metadata now] ++
              [AIAssistant.assistantMessageFor reply now] }⟩,
        { response := reply.content.getD "", toolCalls := reply.toolCalls }) ∧
    (context.messages ++ [AIAssistant.userMessageFor content metadata now] ++
        [AIAssistant.assistantMessageFor reply now]).length =
      context.messages.length + 2 ∧
    (AIAssistant.assistantMessageFor reply now).content = reply.content.getD "" := by
  refine ⟨?_, by simp, rfl⟩
  unfold AIAssistant.sendMessage
  rw [hctx]
  dsimp only
  rw [hreply]
  cases hrtc : reply.toolCalls with
  | none => rfl
  | some l =>
      rw [hrtc] at hnotc
      simp only [Option.getD_some] at hnotc
      subst hnotc
      dsimp only
      rw [if_neg (by simp)]

/-- C8 (witness): a stub provider that echoes; the conversation grows by exactly
two messages and the reply is the assistant content. -/
theorem claimC8_witness :
    AIAssistant.sendMessage ⟨[("c", { messages := [], tools := [], createdAt := 0 })]⟩
        ⟨[], []⟩ (fun _ _ => { content := some "hello back", toolCalls := none })
        "c" "hello" none 0 0 =
      Except.ok
        (⟨jsSet [("c", { messages := [], tools := [], createdAt := 0 })] "c"
            { messages :=
                ([] : List Message) ++ [AIAssistant.userMessageFor "hello" none 0] ++
                [AIAssistant.assistantMessageFor
                  { content := some "hello back", toolCalls := none } 0],
              tools := [], createdAt := 0 }⟩,
         { response := "hello back", toolCalls := none }) :=
  (claimC8_no_tool_calls_appends_exactly_two
    ⟨[("c", { messages := [], tools := [], createdAt := 0 })]⟩ ⟨[], []⟩
    (fun _ _ => { content := some "hello back", toolCalls := none })
    "c" "hello" none 0 0 { messages := [], tools := [], createdAt := 0 }
    { content := some "hello back", toolCalls := none } rfl rfl rfl).1

/-- The transcript of a completed `sendMessage` on a found conversation: the new
entry replaces only the addressed id and its messages extend the old ones. -/
theorem sendMessage_found_shape (st : AIAssistantState) (pm : PluginManager)
    (callModel : ChatModel) (conversationId content : String)
    (metadata : Option MsgMetadata) (now elapsed : Nat) (context : ConversationContext)
    (hctx : jsGet st.conversations conversationId = some context) :
    ∃ (ctx' : ConversationContext) (res : AIAssistant.SendResult),
      AIAssistant.sendMessage st pm callModel conversationId content metadata now elapsed =
        Except.ok (⟨jsSet st.conversations conversationId ctx'⟩, res) ∧
      context.messages <+: ctx'.messages := by
  unfold AIAssistant.sendMessage
  rw [hctx]
  dsimp only
  cases htc : (callModel
      ((context.messages ++ [AIAssistant.userMessageFor content metadata now]).map toWire)
      (some (formatToolsForOpenAI context.tools))).toolCalls with
  | none =>
      refine ⟨_, _, rfl, ?_⟩
      simp [List.append_assoc]
  | some tcs =>
      dsimp only
      by_cases hlen : 0 < tcs.length
      · rw [if_pos hlen]
        refine ⟨_, _, rfl, ?_⟩
        simp [List.append_assoc]
      · rw [if_neg hlen]
        refine ⟨_, _, rfl, ?_⟩
        simp [List.append_assoc]

/-- One `send` in a sequence of interleaved sends: the per-turn parameters
together with the registry and provider in effect for that turn. -/
structure SendOp where
  conversationId : String
  content : String
  metadata : Option MsgMetadata := none
  now : Nat := 0
  elapsed : Nat := 0
  pm : PluginManager
  callModel : ChatModel

/-- The state after one `send`; a thrown error leaves the state as the failure
point left it (with a total provider model the only throw is the pre-mutation
unknown-conversation error, which changes nothing). -/
def applySend (st : AIAssistantState) (op : SendOp) : AIAssistantState :=
  match AIAssistant.sendMessage st op.pm op.callModel op.conversationId op.content
      op.metadata op.now op.elapsed with
  | Except.ok r => r.1
  | Except.error _ => st

theorem applySend_frame (st : AIAssistantState) (op : SendOp) (c' : String)
    (hne : c' ≠ op.conversationId) :
    jsGet (applySend st op).conversations c' = jsGet st.conversations c' := by
  unfold applySend
  cases hg : jsGet st.conversations op.conversationId with
  | none =>
      have herr : AIAssistant.sendMessage st op.pm op.callModel op.conversationId
          op.content op.metadata op.now op.elapsed =
          Except.error ("Conversation not found: " ++ op.conversationId) := by
        unfold AIAssistant.sendMessage
        rw [hg]
      rw [herr]
  | some context =>
      obtain ⟨ctx', res, heq, _⟩ := sendMessage_found_shape st op.pm op.callModel
        op.conversationId op.content op.metadata op.now op.elapsed context hg
      rw [heq]
      exact jsGet_set_ne _ _ _ _ (fun he => hne he.symm)

/-- C9 — conversation isolation: a send addressed to one conversation id leaves
every other conversation's entry untouched and only appends to its own message
sequence; consequently, under any sequential interleaving of send operations, a
conversation addressed by none of them is unchanged. -/
theorem claimC9_conversation_isolation :
    (∀ (st : AIAssistantState) (op : SendOp) (c' : String), c' ≠ op.conversationId →
      jsGet (applySend st op).conversations c' = jsGet st.conversations c') ∧
    (∀ (st : AIAssistantState) (op : SendOp) (context : ConversationContext),
      jsGet st.conversations op.conversationId = some context →
      ∃ ctx' : ConversationContext,
        jsGet (applySend st op).conversations op.conversationId = some ctx' ∧
        context.messages <+: ctx'.messages) ∧
    (∀ (ops : List SendOp) (st : AIAssistantState) (c' : String),
      (∀ op ∈ ops, op.conversationId ≠ c') →
      jsGet (ops.foldl applySend st).conversations c' = jsGet st.conversations c') := by
  refine ⟨fun st op c' h => applySend_frame st op c' h, ?_, ?_⟩
  · intro st op context hctx
    unfold applySend
    obtain ⟨ctx', res, heq, hpre⟩ := sendMessage_found_shape st op.pm op.callModel
      op.conversationId op.content op.metadata op.now op.elapsed context hctx
    rw [heq]
    exact ⟨ctx', jsGet_set_self _ _ _, hpre⟩
  · intro ops
    induction ops with
    | nil => intro st c' _; rfl
    | cons op ops ih =>
        intro st c' hall
        simp only [List.foldl_cons]
        rw [ih (applySend st op) c' (fun o ho => hall o (List.mem_cons_of_mem _ ho))]
        exact applySend_frame st op c'
          (fun he => (hall op (List.mem_cons_self _ _)) he.symm)

/-- C9 (witness): a send addressed to conversation `a` leaves conversation `b`
unchanged. -/
theorem claimC9_witness :
    jsGet (applySend
        ⟨[("a", { messages := [], tools := [], createdAt := 0 }),
          ("b", { messages := [], tools := [], createdAt := 0 })]⟩
        { conversationId := "a", content := "hi", pm := ⟨[], []⟩,
          callModel := fun _ _ => { content := some "ok", toolCalls := none } }).conversations
      "b" =
    jsGet (⟨[("a", { messages := [], tools := [], createdAt := 0 }),
             ("b", { messages := [], tools := [], createdAt := 0 })]⟩ :
        AIAssistantState).conversations "b" :=
  claimC9_conversation_isolation.1
    ⟨[("a", { messages := [], tools := [], createdAt := 0 }),
      ("b", { messages := [], tools := [], createdAt := 0 })]⟩
    { conversationId := "a", content := "hi", pm := ⟨[], []⟩,
      callModel := fun _ _ => { content := some "ok", toolCalls := none } }
    "b" (by decide)

end Spec2Proof
